import Mathlib

/-!
Verification of the wheezy.caching repository (memory cache engine,
memcached adapter, caching patterns, lockout guard) against its
natural-language specification.  The definitions below are shallow
embeddings of the Python source: dictionaries become functions from
keys to optional entries, machine time becomes an explicit `now`
parameter, and the float backoff arithmetic of `OnePass.wait` is
carried out in exact rationals.
-/

namespace WheezyCaching

/-- One stored cache entry, as in `CacheItem` of `memory.py`:
slots `key`, `value`, `expires` (absolute unix seconds, `0` used by the
spec as the never-expire sentinel). -/
structure CacheItem (V : Type) where
  key : String
  value : V
  expires : Int
  deriving DecidableEq, Repr

/-- The main table of the memory cache: a Python dict from key to entry. -/
def Table (V : Type) : Type := String → Option (CacheItem V)

/-- `items[key] = entry` on a dict. -/
def tableInsert {V : Type} (t : Table V) (key : String) (e : CacheItem V) : Table V :=
  fun k => if k = key then some e else t k

/-- `del items[key]` on a dict. -/
def tableErase {V : Type} (t : Table V) (key : String) : Table V :=
  fun k => if k = key then none else t k

/-- `expires(now, time)` from `memory.py`: relative TTLs below one month
(2592000 seconds) are added to `now`, larger values pass through as
absolute timestamps, non-positive values map to the sentinel `0`. -/
def expires (now time : Int) : Int :=
  if time > 0 then
    if time < 2592000 then now + time
    else time
  else 0

/-- `find_expired(bucket_items, now)` from `memory.py`: walk the bucket
list from its end towards the front, collect the keys of pairs whose
expiry is strictly before `now` and delete those pairs in place.  The
functional rendering returns (collected keys, remaining pairs); the
walk from the end makes later pairs' keys precede earlier ones. -/
def find_expired : List (String × Int) → Int → List String × List (String × Int)
  | [], _ => ([], [])
  | (key, e) :: rest, now =>
    if e < now then ((find_expired rest now).1 ++ [key], (find_expired rest now).2)
    else ((find_expired rest now).1, (key, e) :: (find_expired rest now).2)

/-- The `MemoryCache` engine state from `memory.py` (locks are elided:
every operation is modelled as one atomic step of this state). -/
structure MemoryCache (V : Type) where
  period : Int
  interval : Int
  items : Table V
  expire_buckets : List (List (String × Int))
  last_expire_bucket_id : Int

/-- `MemoryCache.__init__(buckets, bucket_interval)`. -/
def mcInit (V : Type) (buckets interval : Nat) : MemoryCache V :=
  { period := (buckets : Int) * (interval : Int)
    interval := (interval : Int)
    items := fun _ => none
    expire_buckets := List.replicate buckets []
    last_expire_bucket_id := -1 }

/-- `MemoryCache.get(key)`: looks the key up; an entry whose expiry is
strictly before `now` is deleted and reported absent. -/
def MemoryCache.get {V : Type} (c : MemoryCache V) (key : String) (now : Int) :
    Option V × MemoryCache V :=
  match c.items key with
  | some entry =>
    if entry.expires < now then (none, { c with items := tableErase c.items key })
    else (some entry.value, c)
  | none => (none, c)

/-- The loop body of `MemoryCache.get_multi(keys, key_prefix)`, threading
the table through the per-key lookups. -/
def get_multi_go {V : Type} (items : Table V) (now : Int) (kpre : String) :
    List String → List (String × V) × Table V
  | [] => ([], items)
  | k :: rest =>
    match items (kpre ++ k) with
    | some entry =>
      if entry.expires < now then get_multi_go (tableErase items (kpre ++ k)) now kpre rest
      else
        ((k, entry.value) :: (get_multi_go items now kpre rest).1,
         (get_multi_go items now kpre rest).2)
    | none => get_multi_go items now kpre rest

/-- `MemoryCache.get_multi(keys, key_prefix)`: bulk lookup; the result
mapping is keyed by the unprefixed key names. -/
def MemoryCache.get_multi {V : Type} (c : MemoryCache V) (keys : List String)
    (kpre : String) (now : Int) : List (String × V) × MemoryCache V :=
  ((get_multi_go c.items now kpre keys).1,
   { c with items := (get_multi_go c.items now kpre keys).2 })

/-- `MemoryCache.delete(key)`: removes a present entry unconditionally,
reporting `false` when the removed entry's expiry was strictly before
`now` and `false` when the key is absent. -/
def MemoryCache.delete {V : Type} (c : MemoryCache V) (key : String) (now : Int) :
    Bool × MemoryCache V :=
  match c.items key with
  | some entry =>
    let c' := { c with items := tableErase c.items key }
    if entry.expires < now then (false, c') else (true, c')
  | none => (false, c)

/-- The loop of `MemoryCache.delete_multi`: delete each prefixed key,
ignoring absent ones. -/
def removeKeys {V : Type} (t : Table V) : List String → Table V
  | [] => t
  | k :: rest => removeKeys (tableErase t k) rest

/-- `MemoryCache.delete_multi(keys, seconds, key_prefix)`: removes every
listed prefixed key and always returns `True`. -/
def MemoryCache.delete_multi {V : Type} (c : MemoryCache V) (keys : List String)
    (kpre : String) : Bool × MemoryCache V :=
  (true, { c with items := removeKeys c.items (keys.map (fun k => kpre ++ k)) })

/-- The bucket phase shared by `store` and `store_multi` (the code after
the main lock is released): for a positive computed expiry, pick the
bucket one slot behind `(now mod period) / interval` (Python's negative
indexing wraps to the last bucket), sweep it once per activation of its
id, append the new pairs, and bulk-delete any swept keys. -/
def bucketPhase {V : Type} (c : MemoryCache V) (pairs : List (String × Int))
    (now : Int) : MemoryCache V :=
  let bucket_id := (now % c.period) / c.interval
  let n : Int := (c.expire_buckets.length : Int)
  let bidx := ((bucket_id - 1) % n).toNat
  let bucket_items := c.expire_buckets.getD bidx []
  if c.last_expire_bucket_id ≠ bucket_id then
    let expired_keys := (find_expired bucket_items now).1
    let c1 := { c with
      expire_buckets := c.expire_buckets.set bidx ((find_expired bucket_items now).2 ++ pairs)
      last_expire_bucket_id := bucket_id }
    if expired_keys = [] then c1
    else (MemoryCache.delete_multi c1 expired_keys "").2
  else { c with expire_buckets := c.expire_buckets.set bidx (bucket_items ++ pairs) }

/-- `MemoryCache.store(key, value, time, op)`: admission under the main
lock (`op` 0 = set, 1 = add, 2 = replace; an entry whose expiry is
strictly before `now` is first deleted), then the bucket phase when the
computed expiry is positive. -/
def MemoryCache.store {V : Type} (c : MemoryCache V) (key : String) (value : V)
    (time : Int) (op : Nat) (now : Int) : Bool × MemoryCache V :=
  let t := expires now time
  match c.items key with
  | some entry =>
    if entry.expires < now then
      let c' := { c with items := tableInsert (tableErase c.items key) key ⟨key, value, t⟩ }
      (true, if t > 0 then bucketPhase c' [(key, t)] now else c')
    else if op = 1 then (false, c)
    else
      let c' := { c with items := tableInsert c.items key ⟨key, value, t⟩ }
      (true, if t > 0 then bucketPhase c' [(key, t)] now else c')
  | none =>
    if op = 2 then (false, c)
    else
      let c' := { c with items := tableInsert c.items key ⟨key, value, t⟩ }
      (true, if t > 0 then bucketPhase c' [(key, t)] now else c')

/-- The admission loop of `MemoryCache.store_multi`: per mapping entry,
the same expired-then-treat-as-absent and mode logic as `store`,
collecting the failed unprefixed keys and the successfully written
(prefixed key, expiry) pairs in order. -/
def store_multi_go {V : Type} (items : Table V) (now t : Int) (kpre : String)
    (op : Nat) : List (String × V) → List String × List (String × Int) × Table V
  | [] => ([], [], items)
  | (k, value) :: rest =>
    let key := kpre ++ k
    match items key with
    | some entry =>
      if entry.expires < now then
        let items' := tableInsert (tableErase items key) key ⟨key, value, t⟩
        ((store_multi_go items' now t kpre op rest).1,
         (key, t) :: (store_multi_go items' now t kpre op rest).2.1,
         (store_multi_go items' now t kpre op rest).2.2)
      else if op = 1 then
        (k :: (store_multi_go items now t kpre op rest).1,
         (store_multi_go items now t kpre op rest).2.1,
         (store_multi_go items now t kpre op rest).2.2)
      else
        let items' := tableInsert items key ⟨key, value, t⟩
        ((store_multi_go items' now t kpre op rest).1,
         (key, t) :: (store_multi_go items' now t kpre op rest).2.1,
         (store_multi_go items' now t kpre op rest).2.2)
    | none =>
      if op = 2 then
        (k :: (store_multi_go items now t kpre op rest).1,
         (store_multi_go items now t kpre op rest).2.1,
         (store_multi_go items now t kpre op rest).2.2)
      else
        let items' := tableInsert items key ⟨key, value, t⟩
        ((store_multi_go items' now t kpre op rest).1,
         (key, t) :: (store_multi_go items' now t kpre op rest).2.1,
         (store_multi_go items' now t kpre op rest).2.2)

/-- `MemoryCache.store_multi(mapping, time, key_prefix, op)`: the
admission loop under the main lock, then one bucket phase extending the
active bucket with all successful pairs when the computed expiry is
positive and anything succeeded. -/
def MemoryCache.store_multi {V : Type} (c : MemoryCache V)
    (mapping : List (String × V)) (time : Int) (kpre : String) (op : Nat)
    (now : Int) : List String × MemoryCache V :=
  let t := expires now time
  let keys_failed := (store_multi_go c.items now t kpre op mapping).1
  let succeeded := (store_multi_go c.items now t kpre op mapping).2.1
  let c1 := { c with items := (store_multi_go c.items now t kpre op mapping).2.2 }
  if t > 0 ∧ succeeded ≠ [] then (keys_failed, bucketPhase c1 succeeded now)
  else (keys_failed, c1)

/-- Modelled from the spec: the data model calls a stored entry live
when its expiry is the never-expire sentinel `0` or its expiry has not
yet passed; used to compare the spec's liveness notion with the code's
`expires < now` test. -/
def liveSpec {V : Type} (e : CacheItem V) (now : Int) : Prop :=
  e.expires = 0 ∨ now ≤ e.expires

/-- All stale pairs swept: no pair anywhere in the expiry buckets has
an expiry strictly before `now`. -/
def bucketsFresh {V : Type} (c : MemoryCache V) (now : Int) : Prop :=
  ∀ b ∈ c.expire_buckets, ∀ p ∈ b, ¬ p.2 < now

/-- The Boolean admission-failure test of the add mode (`op = 1`): a
present entry whose expiry is not strictly before `now`. -/
def addFailB {V : Type} (t : Table V) (now : Int) (key : String) : Bool :=
  match t key with
  | some e => decide (¬ e.expires < now)
  | none => false

/-- The Boolean admission-failure test of the replace mode (`op = 2`):
the key is absent. -/
def replaceFailB {V : Type} (t : Table V) (key : String) : Bool :=
  match t key with
  | some _ => false
  | none => true

/-- A one-key table used by several witnesses: the key `"k"` holds an
entry that expired at unix second 50. -/
def cExpired : MemoryCache Int :=
  { period := 900, interval := 15
    items := fun k => if k = "k" then some ⟨"k", 7, 50⟩ else none
    expire_buckets := List.replicate 60 []
    last_expire_bucket_id := -1 }

/-- A one-key table whose entry carries the never-expire sentinel `0`. -/
def cNeverExpires : MemoryCache Int :=
  { period := 900, interval := 15
    items := fun k => if k = "k" then some ⟨"k", 7, 0⟩ else none
    expire_buckets := List.replicate 60 []
    last_expire_bucket_id := -1 }

/-- Step 1 of a concrete four-step run of the memory engine (2 buckets
of 1 second) exercising the interaction between overwrites and the
expiry-bucket sweep: `"k"` is stored at `now = 10` with TTL 5. -/
def mcRun1 : MemoryCache Int := ((mcInit Int 2 1).store "k" 1 5 0 10).2

/-- Step 2: `"k"` is overwritten at `now = 12` with TTL 100 (expiry
112); the stale bucket pair `("k", 15)` is left in place. -/
def mcRun2 : MemoryCache Int := (mcRun1.store "k" 2 100 0 12).2

/-- Step 3: an unrelated store at `now = 13` lands in the other bucket
slot and records its id as swept. -/
def mcRun3 : MemoryCache Int := (mcRun2.store "a" 3 100 0 13).2

/-- Step 4: a store at `now = 16` reactivates the bucket holding the
stale `("k", 15)` pair, sweeping it. -/
def mcRun4 : MemoryCache Int := (mcRun3.store "b" 4 100 0 16).2

/-- One lockout counter (`Counter` in `lockout.py`); `period` and
`duration` are already-normalized seconds, and `alert` is modelled as a
flag recording whether a callback is configured. -/
structure Counter (Ctx : Type) where
  key_func : Ctx → String
  count : Int
  period : Int
  duration : Int
  reset : Bool
  alert : Bool

/-- One observable call issued by the lockout code: the cache
operations with the namespace argument exactly as passed (the lockout
stores a one-element sequence), plus the alert callback invocation with
its `(context, lockout name, counter)` arguments. -/
inductive CacheCall (Ctx N : Type) : Type where
  | delete_multi (keys : List String) (seconds : Int) (kpre : String) (ns : List N)
  | add (key : String) (value : Int) (time : Int) (ns : List N)
  | incr (key : String) (delta : Int) (ns : List N)
  | delete (key : String) (seconds : Int) (ns : List N)
  | get_multi (keys : List String) (kpre : String) (ns : List N)
  | alertCall (ctx : Ctx) (name : String) (c : Counter Ctx)

/-- The namespace argument carried by a `CacheCall` (`none` for the
alert callback, which takes no namespace). -/
def CacheCall.nsOf {Ctx N : Type} : CacheCall Ctx N → Option (List N)
  | .delete_multi _ _ _ ns => some ns
  | .add _ _ _ ns => some ns
  | .incr _ _ ns => some ns
  | .delete _ _ ns => some ns
  | .get_multi _ _ ns => some ns
  | .alertCall _ _ _ => none

/-- `Lockout` state from `lockout.py`; `nspace` is whatever the
constructor stored into `self.namespace`. -/
structure Lockout (Ctx N : Type) where
  name : String
  counters : List (Counter Ctx)
  nspace : List N
  kpre : String

/-- `Lockout.__init__`: the assignment `self.namespace = namespace,`
ends in a comma, so the stored field is the one-element sequence
`(namespace,)` rather than the scalar. -/
def Lockout.make {Ctx N : Type} (name : String) (counters : List (Counter Ctx))
    (ns : N) (kpre : String) : Lockout Ctx N :=
  { name := name, counters := counters, nspace := [ns], kpre := kpre }

/-- `Locker` from `lockout.py`: the shared defaults `define` passes on
(the dynamic `terms` registry is elided — `define` below receives the
counters it would have built). -/
structure Locker (N : Type) where
  nspace : N
  kpre : String

/-- `Locker.define(name, **terms)`: derives the lockout key prefix as
`'%s:%s:' % (self.key_prefix, name.replace(' ', '_'))` and builds the
`Lockout` with the shared cache namespace. -/
def Locker.define {Ctx N : Type} (lk : Locker N) (name : String)
    (counters : List (Counter Ctx)) : Lockout Ctx N :=
  Lockout.make name counters lk.nspace
    (lk.kpre ++ ":" ++ (name.replace " " "_") ++ ":")

/-- Oracle for the cache's answers while `guard` handles a failure: per
counter index, whether `cache.add` succeeded and what `cache.incr`
returned. -/
structure GuardOracle where
  addOk : Nat → Bool
  incrVal : Nat → Int

/-- The Python idiom `cache.add(key, 1, c.period, ns) and 1 or
cache.incr(key, 1, ns)`: the current try-count is `1` when the add
succeeded, otherwise the value the increment returned. -/
def guardTryCount (o : GuardOracle) (i : Nat) : Int :=
  if o.addOk i then 1 else o.incrVal i

/-- The calls issued for the counter at index `i` when the wrapped
action failed (`Lockout.guard`, else-branch): the add (and, when it
fails, the incr), then — when the try-count reaches `c.count` — the
delete of the failure key, the add of the `'lock:' + key` key with
value 1 and TTL `c.duration`, and the alert callback when one is
configured. -/
def guardCounter {Ctx N : Type} (lo : Lockout Ctx N) (o : GuardOracle) (ctx : Ctx)
    (i : Nat) (c : Counter Ctx) : List (CacheCall Ctx N) :=
  let key := lo.kpre ++ c.key_func ctx
  (if o.addOk i then [CacheCall.add key 1 c.period lo.nspace]
   else [CacheCall.add key 1 c.period lo.nspace, CacheCall.incr key 1 lo.nspace])
  ++ (if c.count ≤ guardTryCount o i then
        [CacheCall.delete key 0 lo.nspace,
         CacheCall.add ("lock:" ++ key) 1 c.duration lo.nspace]
        ++ (if c.alert then [CacheCall.alertCall ctx lo.name c] else [])
      else [])

/-- `Lockout.guard(func)` evaluated with the wrapped action's boolean
result `succeed`: returns that result unchanged plus the trace of calls
(success: one bulk delete of the reset-flagged counters' keys, issued
only when that key list is nonempty; failure: the per-counter
handling). -/
def Lockout.guard {Ctx N : Type} (lo : Lockout Ctx N) (o : GuardOracle)
    (succeed : Bool) (ctx : Ctx) : Bool × List (CacheCall Ctx N) :=
  if succeed then
    (succeed,
     if (lo.counters.filter (fun c => c.reset)).map (fun c => lo.kpre ++ c.key_func ctx) = []
     then []
     else [CacheCall.delete_multi
             ((lo.counters.filter (fun c => c.reset)).map (fun c => lo.kpre ++ c.key_func ctx))
             0 "" lo.nspace])
  else
    (succeed, lo.counters.enum.flatMap (fun p => guardCounter lo o ctx p.1 p.2))

/-- `Lockout.forbid_locked(func)`: one bulk lookup of the
`'lock:' + key_prefix + key_func(ctx)` keys; `locksFound` abstracts
whether that lookup returned any entries; the wrapped function's or the
forbid action's result is passed through accordingly. -/
def Lockout.forbid_locked {Ctx N R : Type} (lo : Lockout Ctx N) (locksFound : Bool)
    (forbidResult funcResult : R) (ctx : Ctx) : R × List (CacheCall Ctx N) :=
  (if locksFound then forbidResult else funcResult,
   [CacheCall.get_multi
      (lo.counters.map (fun c => ("lock:" ++ lo.kpre) ++ c.key_func ctx)) "" lo.nspace])

/-- A concrete counter for the lockout witnesses. -/
def counterEx : Counter Unit :=
  { key_func := fun _ => "u", count := 3, period := 60, duration := 600,
    reset := true, alert := true }

/-- A concrete lockout for the witnesses. -/
def lockoutEx : Lockout Unit String := Lockout.make "signin" [counterEx] "app" "c:signin:"

/-- A concrete oracle: the add fails and the increment reports 3. -/
def oracleEx : GuardOracle := { addOk := fun _ => false, incrVal := fun _ => 3 }

/-- The backoff update of `OnePass.wait`, in exact rationals:
`if wait_time < 0.8: wait_time *= 2.0`. -/
def next_wait_time (w : ℚ) : ℚ := if w < 4/5 then w * 2 else w

/-- One iteration of the `OnePass.wait` polling loop's timing: the
amount slept (the backoff interval current at entry), the updated
backoff, and the updated remaining budget — the source decrements
`timeout` only after doubling `wait_time`. -/
def wait_step (timeout wait_time : ℚ) : ℚ × ℚ × ℚ :=
  (wait_time, next_wait_time wait_time, timeout - next_wait_time wait_time)

/-- The polling loop of `OnePass.wait`: `while timeout > 0.0 and
expected == marker`, sleep, re-read the marker (`reads` is the oracle
of successive `cache.get` answers; `none` when the oracle is exhausted
mid-loop), return `True` on a deleted marker, `False` on loop exit. -/
def wait_loop (expected marker : Option Int) (timeout wait_time : ℚ) :
    List (Option Int) → Option Bool
  | [] => if 0 < timeout ∧ expected = marker then none else some false
  | r :: rest =>
    if 0 < timeout ∧ expected = marker then
      if r = none then some true
      else wait_loop expected r (timeout - next_wait_time wait_time)
             (next_wait_time wait_time) rest
    else some false

/-- `OnePass.wait(timeout)`: `timeout = timeout or self.time` (Python
falsiness: an absent or zero argument falls back to the construction
`time`), the marker is read once into `expected`, and the backoff
starts at 0.05 seconds. -/
def OnePass_wait (time_default : ℚ) (timeout_arg : Option ℚ) (first : Option Int)
    (reads : List (Option Int)) : Option Bool :=
  wait_loop first first
    (match timeout_arg with
     | none => time_default
     | some x => if x = 0 then time_default else x)
    (1/20) reads

/-- The successive backoff intervals of `OnePass.wait`, starting at
0.05 seconds and applying the doubling/cap update each iteration. -/
def wait_time_seq : Nat → ℚ
  | 0 => 1/20
  | n + 1 => next_wait_time (wait_time_seq n)

/-- Modelled from the spec (§6, external client contract): the
distributed-cache client's `incr` — the new value after adding `delta`,
or absent (with no write) when the key is missing. -/
def clientIncr (st : String → Option Int) (key : String) (delta : Int) :
    Option Int × (String → Option Int) :=
  match st key with
  | none => (none, st)
  | some v => (some (v + delta), fun k => if k = key then some (v + delta) else st k)

/-- Modelled from the spec (§6, external client contract): the
client's `decr`, symmetric to `clientIncr`. -/
def clientDecr (st : String → Option Int) (key : String) (delta : Int) :
    Option Int × (String → Option Int) :=
  match st key with
  | none => (none, st)
  | some v => (some (v - delta), fun k => if k = key then some (v - delta) else st k)

/-- Modelled from the spec (§6, external client contract): the
client's `add` — stores only when the key is absent. -/
def clientAdd (st : String → Option Int) (key : String) (value : Int) :
    Bool × (String → Option Int) :=
  match st key with
  | some _ => (false, st)
  | none => (true, fun k => if k = key then some value else st k)

/-- `MemcachedClient.incr` from `memcache.py` over the modelled client:
encode the key, increment; when that reports absent, return absent
unless an `initial_value` was supplied, in which case add it (ignoring
that add's own outcome) and increment again, returning that result. -/
def memcachedIncr (enc : String → String) (st : String → Option Int) (key : String)
    (delta : Int) (initial_value : Option Int) : Option Int × (String → Option Int) :=
  match (clientIncr st (enc key) delta).1 with
  | some r => (some r, (clientIncr st (enc key) delta).2)
  | none =>
    match initial_value with
    | none => (none, (clientIncr st (enc key) delta).2)
    | some iv => clientIncr (clientAdd (clientIncr st (enc key) delta).2 (enc key) iv).2 (enc key) delta

/-- `MemcachedClient.decr` from `memcache.py`, symmetric to
`memcachedIncr`. -/
def memcachedDecr (enc : String → String) (st : String → Option Int) (key : String)
    (delta : Int) (initial_value : Option Int) : Option Int × (String → Option Int) :=
  match (clientDecr st (enc key) delta).1 with
  | some r => (some r, (clientDecr st (enc key) delta).2)
  | none =>
    match initial_value with
    | none => (none, (clientDecr st (enc key) delta).2)
    | some iv => clientDecr (clientAdd (clientDecr st (enc key) delta).2 (enc key) iv).2 (enc key) delta

/-- A concrete one-counter client state for the adapter witnesses. -/
def stEx : String → Option Int := fun k => if k = "n" then some 5 else none

/-- C2: the `expires` helper returns `0` when `time ≤ 0`, `now + time`
when `0 < time < 2592000`, and `time` unchanged when `time ≥ 2592000`. -/
theorem expires_spec (now time : Int) :
    (time ≤ 0 → expires now time = 0)
    ∧ (0 < time → time < 2592000 → expires now time = now + time)
    ∧ (2592000 ≤ time → expires now time = time) := by
  refine ⟨fun h => ?_, fun h1 h2 => ?_, fun h => ?_⟩
  · have hn : ¬ time > 0 := by omega
    simp only [expires, if_neg hn]
  · simp only [expires, if_pos h1, if_pos h2]
  · have h1 : time > 0 := by omega
    have hn : ¬ time < 2592000 := by omega
    simp only [expires, if_pos h1, if_neg hn]

/-- C2 witness: the three cases of `expires_spec` at concrete inputs. -/
theorem expires_spec_witness :
    expires 10 (-1) = 0 ∧ expires 10 1 = 11 ∧ expires 10 3000000 = 3000000 :=
  ⟨(expires_spec 10 (-1)).1 (by decide),
   (expires_spec 10 1).2.1 (by decide) (by decide),
   (expires_spec 10 3000000).2.2 (by decide)⟩

theorem get_multi_go_none_preserved {V : Type} (keys : List String) (items : Table V)
    (now : Int) (kpre k' : String) (h : items k' = none) :
    (get_multi_go items now kpre keys).2 k' = none := by
  induction keys generalizing items with
  | nil => simpa [get_multi_go] using h
  | cons k rest ih =>
    simp only [get_multi_go]
    cases hk : items (kpre ++ k) with
    | none => exact ih items h
    | some entry =>
      by_cases he : entry.expires < now
      · simp only [if_pos he]
        refine ih _ ?_
        simp only [tableErase]
        split
        · rfl
        · exact h
      · simp only [if_neg he]
        exact ih items h

theorem get_multi_go_mem {V : Type} (keys : List String) (items : Table V)
    (now : Int) (kpre k0 : String) (v : V)
    (h : (k0, v) ∈ (get_multi_go items now kpre keys).1) :
    ∃ e, items (kpre ++ k0) = some e ∧ ¬ e.expires < now ∧ e.value = v := by
  induction keys generalizing items with
  | nil => simp [get_multi_go] at h
  | cons k rest ih =>
    simp only [get_multi_go] at h
    cases hk : items (kpre ++ k) with
    | none =>
      simp only [hk] at h
      exact ih items h
    | some entry =>
      simp only [hk] at h
      by_cases he : entry.expires < now
      · simp only [if_pos he] at h
        obtain ⟨e, he1, he2, he3⟩ := ih _ h
        refine ⟨e, ?_, he2, he3⟩
        simp only [tableErase] at he1
        by_cases hkk : kpre ++ k0 = kpre ++ k
        · rw [if_pos hkk] at he1
          exact absurd he1 (by simp)
        · rwa [if_neg hkk] at he1
      · simp only [if_neg he, List.mem_cons, Prod.mk.injEq] at h
        rcases h with ⟨h1, h2⟩ | h
        · subst h1
          exact ⟨entry, hk, he, h2.symm⟩
        · exact ih items h

theorem get_multi_go_expired_erased {V : Type} (keys : List String) (items : Table V)
    (now : Int) (kpre k0 : String) (e0 : CacheItem V)
    (h : items (kpre ++ k0) = some e0) (hexp : e0.expires < now) (hmem : k0 ∈ keys) :
    (get_multi_go items now kpre keys).2 (kpre ++ k0) = none := by
  induction keys generalizing items with
  | nil => simp at hmem
  | cons k rest ih =>
    simp only [get_multi_go]
    by_cases hkk : kpre ++ k = kpre ++ k0
    · simp only [hkk, h, if_pos hexp]
      refine get_multi_go_none_preserved rest _ now kpre _ ?_
      simp [tableErase, hkk]
    · have hk0r : k0 ∈ rest := by
        rcases List.mem_cons.mp hmem with h1 | h1
        · exact absurd (by rw [h1]) hkk
        · exact h1
      cases hk : items (kpre ++ k) with
      | none => exact ih items h hk0r
      | some entry =>
        by_cases he : entry.expires < now
        · simp only [if_pos he]
          refine ih _ ?_ hk0r
          simp only [tableErase, if_neg (fun hx : kpre ++ k0 = kpre ++ k => hkk hx.symm)]
          exact h
        · simp only [if_neg he]
          exact ih items h hk0r

/-- C1: an entry with a nonzero expiry strictly before `now` is never
returned: `get` reports absent and removes it; `get_multi` omits the key
from its results and removes the entry; conversely every value either
read operation does return comes from an entry whose expiry is not
strictly before `now` (so in particular not from a logically expired
one). -/
theorem expired_entries_never_read :
    (∀ (V : Type) (c : MemoryCache V) (key : String) (now : Int) (e : CacheItem V),
       c.items key = some e → e.expires ≠ 0 → e.expires < now →
       (c.get key now).1 = none ∧ (c.get key now).2.items key = none)
    ∧ (∀ (V : Type) (c : MemoryCache V) (keys : List String) (kpre k0 : String)
         (now : Int) (e : CacheItem V),
       c.items (kpre ++ k0) = some e → e.expires ≠ 0 → e.expires < now →
       (∀ v, (k0, v) ∉ (c.get_multi keys kpre now).1)
       ∧ (k0 ∈ keys → (c.get_multi keys kpre now).2.items (kpre ++ k0) = none))
    ∧ (∀ (V : Type) (c : MemoryCache V) (key : String) (now : Int) (v : V),
       (c.get key now).1 = some v →
       ∃ e, c.items key = some e ∧ e.value = v ∧ ¬ e.expires < now)
    ∧ (∀ (V : Type) (c : MemoryCache V) (keys : List String) (kpre k0 : String)
         (now : Int) (v : V),
       (k0, v) ∈ (c.get_multi keys kpre now).1 →
       ∃ e, c.items (kpre ++ k0) = some e ∧ e.value = v ∧ ¬ e.expires < now) := by
  refine ⟨?_, ?_, ?_, ?_⟩
  · intro V c key now e he _ hexp
    simp [MemoryCache.get, he, hexp, tableErase]
  · intro V c keys kpre k0 now e he _ hexp
    constructor
    · intro v hv
      obtain ⟨e', he', hlive, _⟩ := get_multi_go_mem keys c.items now kpre k0 v hv
      rw [he] at he'
      cases he'
      exact hlive hexp
    · intro hmem
      exact get_multi_go_expired_erased keys c.items now kpre k0 e he hexp hmem
  · intro V c key now v hv
    simp only [MemoryCache.get] at hv
    cases hk : c.items key with
    | none =>
      simp only [hk] at hv
      exact absurd hv (by simp)
    | some entry =>
      simp only [hk] at hv
      by_cases he : entry.expires < now
      · simp only [if_pos he] at hv
        exact absurd hv (by simp)
      · simp only [if_neg he, Option.some.injEq] at hv
        exact ⟨entry, rfl, hv, he⟩
  · intro V c keys kpre k0 now v hv
    obtain ⟨e, h1, h2, h3⟩ := get_multi_go_mem keys c.items now kpre k0 v hv
    exact ⟨e, h1, h3, h2⟩

/-- C1 witness: at `now = 100` the expired entry of `cExpired` is
invisible to `get` and `get_multi` and physically removed by both. -/
theorem expired_entries_never_read_witness :
    ((cExpired.get "k" 100).1 = none ∧ (cExpired.get "k" 100).2.items "k" = none)
    ∧ ((∀ v, ("k", v) ∉ (cExpired.get_multi ["k"] "" 100).1)
       ∧ ("k" ∈ ["k"] → (cExpired.get_multi ["k"] "" 100).2.items ("" ++ "k") = none)) :=
  ⟨expired_entries_never_read.1 Int cExpired "k" 100 ⟨"k", 7, 50⟩ rfl (by decide) (by decide),
   expired_entries_never_read.2.1 Int cExpired ["k"] "" "k" 100 ⟨"k", 7, 50⟩
     (by decide) (by decide) (by decide)⟩

theorem removeKeys_apply {V : Type} (ks : List String) (t : Table V) (k' : String) :
    removeKeys t ks k' = if k' ∈ ks then none else t k' := by
  induction ks generalizing t with
  | nil => simp [removeKeys]
  | cons k rest ih =>
    simp only [removeKeys, ih, tableErase, List.mem_cons]
    by_cases h1 : k' ∈ rest
    · simp [h1]
    · by_cases h2 : k' = k <;> simp [h1, h2]

/-- C9 counterexample: at `now = 100` the key `"k"` of `cNeverExpires`
holds a live entry (never-expire sentinel `0`, so live per the spec's
data model), yet `delete` removes it and returns `false`, contradicting
"returns true if and only if the removed entry was still live". -/
theorem delete_live_entry_reports_false :
    cNeverExpires.items "k" = some ⟨"k", 7, 0⟩
    ∧ liveSpec (⟨"k", 7, 0⟩ : CacheItem Int) 100
    ∧ (cNeverExpires.delete "k" 100).1 = false
    ∧ (cNeverExpires.delete "k" 100).2.items "k" = none :=
  ⟨by decide, Or.inl rfl, by decide, by decide⟩

/-- C9 amended: `delete` removes a present entry unconditionally and
returns true exactly when the entry's stored expiry is not strictly
before `now` (so an entry carrying the never-expire sentinel `0` is
removed but reported `false` for any positive `now`); an absent key
reports `false` with the state unchanged; `delete_multi` removes every
listed prefixed key, leaves all other keys alone, and always returns
true. -/
theorem delete_reports_live_by_expiry :
    (∀ (V : Type) (c : MemoryCache V) (key : String) (now : Int) (e : CacheItem V),
       c.items key = some e →
       (c.delete key now).2.items key = none
       ∧ ((c.delete key now).1 = true ↔ ¬ e.expires < now)
       ∧ (∀ k', k' ≠ key → (c.delete key now).2.items k' = c.items k'))
    ∧ (∀ (V : Type) (c : MemoryCache V) (key : String) (now : Int),
       c.items key = none → c.delete key now = (false, c))
    ∧ (∀ (V : Type) (c : MemoryCache V) (keys : List String) (kpre : String),
       (c.delete_multi keys kpre).1 = true
       ∧ (∀ k ∈ keys, (c.delete_multi keys kpre).2.items (kpre ++ k) = none)
       ∧ (∀ k', (∀ k ∈ keys, kpre ++ k ≠ k') →
           (c.delete_multi keys kpre).2.items k' = c.items k')) := by
  refine ⟨?_, ?_, ?_⟩
  · intro V c key now e he
    simp only [MemoryCache.delete, he]
    by_cases hexp : e.expires < now
    · simp only [if_pos hexp]
      refine ⟨by simp [tableErase], by simp [hexp], fun k' hk' => ?_⟩
      simp [tableErase, hk']
    · simp only [if_neg hexp]
      refine ⟨by simp [tableErase], by simp [hexp], fun k' hk' => ?_⟩
      simp [tableErase, hk']
  · intro V c key now he
    simp [MemoryCache.delete, he]
  · intro V c keys kpre
    refine ⟨rfl, fun k hk => ?_, fun k' hk' => ?_⟩
    · simp only [MemoryCache.delete_multi, removeKeys_apply]
      rw [if_pos (List.mem_map_of_mem _ hk)]
    · simp only [MemoryCache.delete_multi, removeKeys_apply]
      rw [if_neg]
      intro hmem
      obtain ⟨k, hk, hkk⟩ := List.mem_map.mp hmem
      exact hk' k hk hkk

/-- C9 witness: `delete_reports_live_by_expiry` applied to a table
holding a live entry at 50 read at `now = 20`, an absent key, and a bulk
delete. -/
theorem delete_reports_live_by_expiry_witness :
    ((cExpired.delete "k" 20).2.items "k" = none
      ∧ ((cExpired.delete "k" 20).1 = true ↔ ¬ (50 : Int) < 20)
      ∧ (∀ k', k' ≠ "k" → (cExpired.delete "k" 20).2.items k' = cExpired.items k'))
    ∧ cExpired.delete "x" 20 = (false, cExpired)
    ∧ (∀ k ∈ ["k"], (cExpired.delete_multi ["k"] "").2.items ("" ++ k) = none) :=
  ⟨delete_reports_live_by_expiry.1 Int cExpired "k" 20 ⟨"k", 7, 50⟩ (by decide),
   delete_reports_live_by_expiry.2.1 Int cExpired "x" 20 (by decide),
   (delete_reports_live_by_expiry.2.2 Int cExpired ["k"] "").2.1⟩

theorem string_append_cancel (p a b : String) (h : p ++ a = p ++ b) : a = b := by
  have hd : (p ++ a).data = (p ++ b).data := by rw [h]
  rw [String.data_append, String.data_append] at hd
  exact String.ext (List.append_cancel_left hd)

theorem mem_of_getElem_opt {α : Type} (l : List α) (n : Nat) (a : α)
    (h : l[n]? = some a) : a ∈ l := by
  have hn : n < l.length := by
    rcases Nat.lt_or_ge n l.length with h1 | h1
    · exact h1
    · rw [List.getElem?_eq_none h1] at h
      cases h
  rw [List.getElem?_eq_getElem hn] at h
  cases h
  exact List.getElem_mem hn

theorem find_expired_fresh (b : List (String × Int)) (now : Int)
    (h : ∀ p ∈ b, ¬ p.2 < now) : find_expired b now = ([], b) := by
  induction b with
  | nil => rfl
  | cons p rest ih =>
    obtain ⟨k, e⟩ := p
    have he : ¬ e < now := h (k, e) (List.mem_cons_self _ _)
    have hr := ih (fun q hq => h q (List.mem_cons_of_mem _ hq))
    simp [find_expired, if_neg he, hr]

theorem bucketPhase_items_fresh {V : Type} (c : MemoryCache V)
    (pairs : List (String × Int)) (now : Int) (h : bucketsFresh c now) :
    (bucketPhase c pairs now).items = c.items := by
  have hfresh : ∀ (i : Nat), ∀ p ∈ c.expire_buckets.getD i [], ¬ p.2 < now := by
    intro i p hp
    rw [List.getD_eq_getElem?_getD] at hp
    rcases hx : c.expire_buckets[i]? with _ | b
    · rw [hx] at hp
      simp at hp
    · rw [hx] at hp
      exact h b (mem_of_getElem_opt _ i b hx) p hp
  simp only [bucketPhase]
  rw [find_expired_fresh _ _ (hfresh _)]
  split
  · simp
  · rfl

theorem store_multi_go_untouched {V : Type} (mapping : List (String × V))
    (items : Table V) (now t : Int) (kpre : String) (op : Nat) (K : String)
    (h : ∀ p ∈ mapping, kpre ++ p.1 ≠ K) :
    (store_multi_go items now t kpre op mapping).2.2 K = items K := by
  induction mapping generalizing items with
  | nil => rfl
  | cons p rest ih =>
    obtain ⟨k1, v1⟩ := p
    have hK1 : ¬ K = kpre ++ k1 := fun hx => h (k1, v1) (List.mem_cons_self _ _) hx.symm
    have hrest : ∀ q ∈ rest, kpre ++ q.1 ≠ K := fun q hq => h q (List.mem_cons_of_mem _ hq)
    simp only [store_multi_go]
    cases hk : items (kpre ++ k1) with
    | some entry =>
      by_cases he : entry.expires < now
      · simp only [if_pos he]
        rw [ih _ hrest]
        simp [tableInsert, tableErase, hK1]
      · by_cases hop : op = 1
        · simp only [if_neg he, if_pos hop]
          exact ih _ hrest
        · simp only [if_neg he, if_neg hop]
          rw [ih _ hrest]
          simp [tableInsert, hK1]
    | none =>
      by_cases hop : op = 2
      · simp only [if_pos hop]
        exact ih _ hrest
      · simp only [if_neg hop]
        rw [ih _ hrest]
        simp [tableInsert, hK1]

theorem store_multi_go_failed_add {V : Type} (mapping : List (String × V))
    (items0 : Table V) (now t : Int) (kpre : String) :
    ∀ (items : Table V),
    List.Nodup (mapping.map fun p => kpre ++ p.1) →
    (∀ p ∈ mapping, items (kpre ++ p.1) = items0 (kpre ++ p.1)) →
    (store_multi_go items now t kpre 1 mapping).1
      = (mapping.filter fun p => addFailB items0 now (kpre ++ p.1)).map Prod.fst := by
  induction mapping with
  | nil =>
    intro items _ _
    rfl
  | cons p rest ih =>
    intro items hnd hag
    obtain ⟨k1, v1⟩ := p
    rw [List.map_cons, List.nodup_cons] at hnd
    have hag1 : items (kpre ++ k1) = items0 (kpre ++ k1) := hag _ (List.mem_cons_self _ _)
    have hagr : ∀ q ∈ rest, items (kpre ++ q.1) = items0 (kpre ++ q.1) :=
      fun q hq => hag q (List.mem_cons_of_mem _ hq)
    have hagr' : ∀ (x : CacheItem V) q, q ∈ rest →
        tableInsert (tableErase items (kpre ++ k1)) (kpre ++ k1) x (kpre ++ q.1)
          = items0 (kpre ++ q.1) := by
      intro x q hq
      have hne : ¬ kpre ++ q.1 = kpre ++ k1 := by
        intro hx
        exact hnd.1 (hx ▸ List.mem_map_of_mem (fun p => kpre ++ p.1) hq)
      simp [tableInsert, tableErase, hne, hagr q hq]
    have hagr'' : ∀ (x : CacheItem V) q, q ∈ rest →
        tableInsert items (kpre ++ k1) x (kpre ++ q.1) = items0 (kpre ++ q.1) := by
      intro x q hq
      have hne : ¬ kpre ++ q.1 = kpre ++ k1 := by
        intro hx
        exact hnd.1 (hx ▸ List.mem_map_of_mem (fun p => kpre ++ p.1) hq)
      simp [tableInsert, hne, hagr q hq]
    simp only [store_multi_go, List.filter_cons]
    cases hk : items0 (kpre ++ k1) with
    | some entry =>
      rw [hag1, hk]
      by_cases he : entry.expires < now
      · have hfail : addFailB items0 now (kpre ++ k1) = false := by
          simp [addFailB, hk, he]
        simp only [if_pos he, hfail, Bool.false_eq_true, if_false]
        exact ih _ hnd.2 (fun q hq => hagr' _ q hq)
      · have hfail : addFailB items0 now (kpre ++ k1) = true := by
          simp [addFailB, hk, he]
        simp only [if_neg he, hfail, if_true, List.map_cons]
        rw [ih _ hnd.2 hagr]
    | none =>
      rw [hag1, hk]
      have hfail : addFailB items0 now (kpre ++ k1) = false := by
        simp [addFailB, hk]
      simp only [hfail, Bool.false_eq_true, if_false]
      exact ih _ hnd.2 (fun q hq => hagr'' _ q hq)

theorem store_multi_go_failed_replace {V : Type} (mapping : List (String × V))
    (items0 : Table V) (now t : Int) (kpre : String) :
    ∀ (items : Table V),
    List.Nodup (mapping.map fun p => kpre ++ p.1) →
    (∀ p ∈ mapping, items (kpre ++ p.1) = items0 (kpre ++ p.1)) →
    (store_multi_go items now t kpre 2 mapping).1
      = (mapping.filter fun p => replaceFailB items0 (kpre ++ p.1)).map Prod.fst := by
  induction mapping with
  | nil =>
    intro items _ _
    rfl
  | cons p rest ih =>
    intro items hnd hag
    obtain ⟨k1, v1⟩ := p
    rw [List.map_cons, List.nodup_cons] at hnd
    have hag1 : items (kpre ++ k1) = items0 (kpre ++ k1) := hag _ (List.mem_cons_self _ _)
    have hagr : ∀ q ∈ rest, items (kpre ++ q.1) = items0 (kpre ++ q.1) :=
      fun q hq => hag q (List.mem_cons_of_mem _ hq)
    have hne : ∀ q ∈ rest, ¬ kpre ++ q.1 = kpre ++ k1 := by
      intro q hq hx
      exact hnd.1 (hx ▸ List.mem_map_of_mem (fun p => kpre ++ p.1) hq)
    simp only [store_multi_go, List.filter_cons]
    cases hk : items0 (kpre ++ k1) with
    | some entry =>
      rw [hag1, hk]
      have hfail : replaceFailB items0 (kpre ++ k1) = false := by
        simp [replaceFailB, hk]
      by_cases he : entry.expires < now
      · simp only [if_pos he, hfail, Bool.false_eq_true, if_false]
        refine ih _ hnd.2 (fun q hq => ?_)
        simp [tableInsert, tableErase, hne q hq, hagr q hq]
      · simp only [if_neg he, hfail, Bool.false_eq_true, if_false]
        have : ¬ (2 : Nat) = 1 := by decide
        simp only [if_neg this]
        refine ih _ hnd.2 (fun q hq => ?_)
        simp [tableInsert, hne q hq, hagr q hq]
    | none =>
      rw [hag1, hk]
      have hfail : replaceFailB items0 (kpre ++ k1) = true := by
        simp [replaceFailB, hk]
      simp only [hfail, if_true, List.map_cons]
      rw [ih _ hnd.2 hagr]

theorem store_multi_go_addfail_unchanged {V : Type} (mapping : List (String × V))
    (items0 : Table V) (now t : Int) (kpre k : String) :
    ∀ (items : Table V),
    List.Nodup (mapping.map fun p => kpre ++ p.1) →
    (∀ p ∈ mapping, items (kpre ++ p.1) = items0 (kpre ++ p.1)) →
    addFailB items0 now (kpre ++ k) = true →
    (store_multi_go items now t kpre 1 mapping).2.2 (kpre ++ k) = items (kpre ++ k) := by
  induction mapping with
  | nil =>
    intro items _ _ _
    rfl
  | cons p rest ih =>
    intro items hnd hag hfail
    obtain ⟨k1, v1⟩ := p
    rw [List.map_cons, List.nodup_cons] at hnd
    have hag1 : items (kpre ++ k1) = items0 (kpre ++ k1) := hag _ (List.mem_cons_self _ _)
    have hagr : ∀ q ∈ rest, items (kpre ++ q.1) = items0 (kpre ++ q.1) :=
      fun q hq => hag q (List.mem_cons_of_mem _ hq)
    have hne : ∀ q ∈ rest, ¬ kpre ++ q.1 = kpre ++ k1 := by
      intro q hq hx
      exact hnd.1 (hx ▸ List.mem_map_of_mem (fun p => kpre ++ p.1) hq)
    simp only [store_multi_go]
    by_cases hKK : kpre ++ k = kpre ++ k1
    · cases hk : items0 (kpre ++ k) with
      | none =>
        rw [addFailB, hk] at hfail
        cases hfail
      | some e =>
        have hlive : ¬ e.expires < now := by
          rw [addFailB, hk] at hfail
          exact of_decide_eq_true hfail
        have hsc : items (kpre ++ k1) = some e := by
          rw [hag1, ← hKK, hk]
        simp only [hsc, if_neg hlive, if_true]
        rw [store_multi_go_untouched rest items now t kpre 1 (kpre ++ k) ?_]
        intro q hq hx
        exact hne q hq (hx.trans hKK)
    · cases hk1 : items (kpre ++ k1) with
      | some entry =>
        by_cases he : entry.expires < now
        · simp only [if_pos he]
          rw [ih _ hnd.2 (fun q hq => by
            simp [tableInsert, tableErase, hne q hq, hagr q hq]) hfail]
          simp [tableInsert, tableErase, hKK]
        · simp only [if_neg he]
          exact ih _ hnd.2 hagr hfail
      | none =>
        have h12 : ¬ (1 : Nat) = 2 := by decide
        simp only [if_neg h12]
        rw [ih _ hnd.2 (fun q hq => by
          simp [tableInsert, hne q hq, hagr q hq]) hfail]
        simp [tableInsert, hKK]

theorem store_multi_go_replacefail_unchanged {V : Type} (mapping : List (String × V))
    (items0 : Table V) (now t : Int) (kpre k : String) :
    ∀ (items : Table V),
    List.Nodup (mapping.map fun p => kpre ++ p.1) →
    (∀ p ∈ mapping, items (kpre ++ p.1) = items0 (kpre ++ p.1)) →
    replaceFailB items0 (kpre ++ k) = true →
    (store_multi_go items now t kpre 2 mapping).2.2 (kpre ++ k) = items (kpre ++ k) := by
  induction mapping with
  | nil =>
    intro items _ _ _
    rfl
  | cons p rest ih =>
    intro items hnd hag hfail
    obtain ⟨k1, v1⟩ := p
    rw [List.map_cons, List.nodup_cons] at hnd
    have hag1 : items (kpre ++ k1) = items0 (kpre ++ k1) := hag _ (List.mem_cons_self _ _)
    have hagr : ∀ q ∈ rest, items (kpre ++ q.1) = items0 (kpre ++ q.1) :=
      fun q hq => hag q (List.mem_cons_of_mem _ hq)
    have hne : ∀ q ∈ rest, ¬ kpre ++ q.1 = kpre ++ k1 := by
      intro q hq hx
      exact hnd.1 (hx ▸ List.mem_map_of_mem (fun p => kpre ++ p.1) hq)
    simp only [store_multi_go]
    by_cases hKK : kpre ++ k = kpre ++ k1
    · have habsent : items0 (kpre ++ k) = none := by
        cases hk : items0 (kpre ++ k) with
        | none => rfl
        | some e =>
          rw [replaceFailB, hk] at hfail
          cases hfail
      have hsc : items (kpre ++ k1) = none := by
        rw [hag1, ← hKK, habsent]
      simp only [hsc, if_true]
      rw [store_multi_go_untouched rest items now t kpre 2 (kpre ++ k) ?_]
      intro q hq hx
      exact hne q hq (hx.trans hKK)
    · cases hk1 : items (kpre ++ k1) with
      | some entry =>
        by_cases he : entry.expires < now
        · simp only [if_pos he]
          rw [ih _ hnd.2 (fun q hq => by
            simp [tableInsert, tableErase, hne q hq, hagr q hq]) hfail]
          simp [tableInsert, tableErase, hKK]
        · have h21 : ¬ (2 : Nat) = 1 := by decide
          simp only [if_neg he, if_neg h21]
          rw [ih _ hnd.2 (fun q hq => by
            simp [tableInsert, hne q hq, hagr q hq]) hfail]
          simp [tableInsert, hKK]
      | none =>
        exact ih _ hnd.2 hagr hfail

/-- C3 counterexample: at `now = 100` the key `"k"` of `cExpired` holds
only an entry that expired at 50, so no live entry exists for it — yet
`replace` (`store` with mode 2) returns `true` and overwrites the
entry, contradicting "for every key with no live entry, replace returns
false and leaves the table unchanged". -/
theorem replace_succeeds_on_expired_entry :
    cExpired.items "k" = some ⟨"k", 7, 50⟩
    ∧ ¬ liveSpec (⟨"k", 7, 50⟩ : CacheItem Int) 100
    ∧ (cExpired.store "k" 9 100 2 100).1 = true
    ∧ (cExpired.store "k" 9 100 2 100).2.items "k" = some ⟨"k", 9, 200⟩ := by
  refine ⟨by decide, ?_, by decide, by decide⟩
  simp only [liveSpec]
  decide

/-- C3 amended: `add` fails (false, state unchanged) exactly on a key
holding an entry whose expiry is not strictly before `now`; `replace`
fails (false, state unchanged) exactly on an absent key; a key whose
entry's expiry is strictly before `now` is removed and overwritten by
any mode, returning true (its post-state visible whenever the bucket
sweep collects nothing); the bulk forms report exactly the
correspondingly failing keys, and (when the sweep collects nothing)
leave the failing keys' entries unmodified. -/
theorem store_admission_amended :
    (∀ (V : Type) (c : MemoryCache V) (key : String) (v : V) (time now : Int)
       (e : CacheItem V), c.items key = some e → ¬ e.expires < now →
       c.store key v time 1 now = (false, c))
    ∧ (∀ (V : Type) (c : MemoryCache V) (key : String) (v : V) (time now : Int),
       c.items key = none → c.store key v time 2 now = (false, c))
    ∧ (∀ (V : Type) (c : MemoryCache V) (key : String) (v : V) (time now : Int)
         (e : CacheItem V) (op : Nat), c.items key = some e → e.expires < now →
       bucketsFresh c now →
       (c.store key v time op now).1 = true
       ∧ (c.store key v time op now).2.items key = some ⟨key, v, expires now time⟩)
    ∧ (∀ (V : Type) (c : MemoryCache V) (mapping : List (String × V))
         (time : Int) (kpre : String) (now : Int),
       List.Nodup (mapping.map fun p => kpre ++ p.1) →
       (c.store_multi mapping time kpre 1 now).1
         = (mapping.filter fun p => addFailB c.items now (kpre ++ p.1)).map Prod.fst)
    ∧ (∀ (V : Type) (c : MemoryCache V) (mapping : List (String × V))
         (time : Int) (kpre : String) (now : Int),
       List.Nodup (mapping.map fun p => kpre ++ p.1) →
       (c.store_multi mapping time kpre 2 now).1
         = (mapping.filter fun p => replaceFailB c.items (kpre ++ p.1)).map Prod.fst)
    ∧ (∀ (V : Type) (c : MemoryCache V) (mapping : List (String × V))
         (time : Int) (kpre k : String) (now : Int),
       List.Nodup (mapping.map fun p => kpre ++ p.1) → bucketsFresh c now →
       addFailB c.items now (kpre ++ k) = true →
       (c.store_multi mapping time kpre 1 now).2.items (kpre ++ k) = c.items (kpre ++ k))
    ∧ (∀ (V : Type) (c : MemoryCache V) (mapping : List (String × V))
         (time : Int) (kpre k : String) (now : Int),
       List.Nodup (mapping.map fun p => kpre ++ p.1) → bucketsFresh c now →
       replaceFailB c.items (kpre ++ k) = true →
       (c.store_multi mapping time kpre 2 now).2.items (kpre ++ k) = c.items (kpre ++ k)) := by
  refine ⟨?_, ?_, ?_, ?_, ?_, ?_, ?_⟩
  · intro V c key v time now e he hlive
    simp [MemoryCache.store, he, hlive]
  · intro V c key v time now he
    simp [MemoryCache.store, he]
  · intro V c key v time now e op he hexp hfresh
    simp only [MemoryCache.store, he, if_pos hexp]
    constructor
    · trivial
    · by_cases ht : expires now time > 0
      · simp only [if_pos ht]
        have hfr : bucketsFresh { c with items := tableInsert (tableErase c.items key) key (CacheItem.mk key v (expires now time)) } now := hfresh
        rw [bucketPhase_items_fresh _ _ _ hfr]
        simp [tableInsert]
      · simp only [if_neg ht]
        simp [tableInsert]
  · intro V c mapping time kpre now hnd
    simp only [MemoryCache.store_multi]
    split
    · exact store_multi_go_failed_add mapping c.items now _ kpre c.items hnd
        (fun q _ => rfl)
    · exact store_multi_go_failed_add mapping c.items now _ kpre c.items hnd
        (fun q _ => rfl)
  · intro V c mapping time kpre now hnd
    simp only [MemoryCache.store_multi]
    split
    · exact store_multi_go_failed_replace mapping c.items now _ kpre c.items hnd
        (fun q _ => rfl)
    · exact store_multi_go_failed_replace mapping c.items now _ kpre c.items hnd
        (fun q _ => rfl)
  · intro V c mapping time kpre k now hnd hfresh hfail
    simp only [MemoryCache.store_multi]
    split
    · have hfr : bucketsFresh
          { c with items := (store_multi_go c.items now (expires now time) kpre 1 mapping).2.2 }
          now := hfresh
      rw [bucketPhase_items_fresh _ _ _ hfr]
      exact store_multi_go_addfail_unchanged mapping c.items now _ kpre k c.items hnd
        (fun q _ => rfl) hfail
    · exact store_multi_go_addfail_unchanged mapping c.items now _ kpre k c.items hnd
        (fun q _ => rfl) hfail
  · intro V c mapping time kpre k now hnd hfresh hfail
    simp only [MemoryCache.store_multi]
    split
    · have hfr : bucketsFresh
          { c with items := (store_multi_go c.items now (expires now time) kpre 2 mapping).2.2 }
          now := hfresh
      rw [bucketPhase_items_fresh _ _ _ hfr]
      exact store_multi_go_replacefail_unchanged mapping c.items now _ kpre k c.items hnd
        (fun q _ => rfl) hfail
    · exact store_multi_go_replacefail_unchanged mapping c.items now _ kpre k c.items hnd
        (fun q _ => rfl) hfail

theorem bucketsFresh_cExpired (now : Int) : bucketsFresh cExpired now := by
  intro b hb p hp
  rw [List.eq_of_mem_replicate hb] at hp
  exact absurd hp (List.not_mem_nil p)

/-- C3 witness: the amended admission rules at concrete states — a
failing `add` on a live entry, a failing `replace` on an absent key, a
succeeding `replace` over an expired entry, and a bulk `add` reporting
its one live key. -/
theorem store_admission_amended_witness :
    cExpired.store "k" 9 100 1 20 = (false, cExpired)
    ∧ cExpired.store "x" 9 100 2 20 = (false, cExpired)
    ∧ (cExpired.store "k" 9 100 2 100).1 = true
    ∧ (cExpired.store_multi [("k", (9 : Int))] 100 "" 1 20).1 = ["k"] :=
  ⟨store_admission_amended.1 Int cExpired "k" 9 100 20 ⟨"k", 7, 50⟩ (by decide) (by decide),
   store_admission_amended.2.1 Int cExpired "x" 9 100 20 (by decide),
   (store_admission_amended.2.2.1 Int cExpired "k" 9 100 100 ⟨"k", 7, 50⟩ 2 (by decide)
     (by decide) (bucketsFresh_cExpired 100)).1,
   (store_admission_amended.2.2.2.1 Int cExpired [("k", 9)] 100 "" 20 (by decide)).trans
     (by decide)⟩

theorem bucketPhase_buckets {V : Type} (c : MemoryCache V)
    (pairs : List (String × Int)) (now : Int) :
    (bucketPhase c pairs now).last_expire_bucket_id = (now % c.period) / c.interval
    ∧ (c.last_expire_bucket_id = (now % c.period) / c.interval →
        (bucketPhase c pairs now).expire_buckets
          = c.expire_buckets.set
              ((((now % c.period) / c.interval - 1) % (c.expire_buckets.length : Int)).toNat)
              ((c.expire_buckets.getD
                  ((((now % c.period) / c.interval - 1) % (c.expire_buckets.length : Int)).toNat) [])
                ++ pairs))
    ∧ (c.last_expire_bucket_id ≠ (now % c.period) / c.interval →
        (bucketPhase c pairs now).expire_buckets
          = c.expire_buckets.set
              ((((now % c.period) / c.interval - 1) % (c.expire_buckets.length : Int)).toNat)
              ((find_expired
                  (c.expire_buckets.getD
                    ((((now % c.period) / c.interval - 1) % (c.expire_buckets.length : Int)).toNat) [])
                  now).2
                ++ pairs)) := by
  refine ⟨?_, ?_, ?_⟩
  · simp only [bucketPhase]
    split
    · split <;> rfl
    · next h => exact Decidable.not_not.mp (fun hne => h hne)
  · intro heq
    simp only [bucketPhase, if_neg (fun hne : _ ≠ _ => hne heq)]
  · intro hne
    simp only [bucketPhase, if_pos hne]
    split <;> rfl

/-- C4: whenever `store` (or `store_multi`) runs with a positive
computed expiry, the new (key, expiry) pair(s) are appended to the
bucket at index `((now mod period) / interval) - 1` taken modulo the
bucket count — one slot behind the literal formula value — the stale
scan (`find_expired`) of that bucket runs exactly when the shared last
swept bucket id differs from the formula's bucket id, and the id is
then set to the formula's value, so a following store in the same
activation does not rescan. -/
theorem store_bucket_sweep :
    (∀ (V : Type) (c : MemoryCache V) (key : String) (v : V) (time : Int)
       (op : Nat) (now : Int),
     0 < expires now time →
     (c.store key v time op now).1 = true →
     (c.store key v time op now).2.last_expire_bucket_id = (now % c.period) / c.interval
     ∧ (c.last_expire_bucket_id = (now % c.period) / c.interval →
         (c.store key v time op now).2.expire_buckets
           = c.expire_buckets.set
               ((((now % c.period) / c.interval - 1) % (c.expire_buckets.length : Int)).toNat)
               ((c.expire_buckets.getD
                   ((((now % c.period) / c.interval - 1) % (c.expire_buckets.length : Int)).toNat) [])
                 ++ [(key, expires now time)]))
     ∧ (c.last_expire_bucket_id ≠ (now % c.period) / c.interval →
         (c.store key v time op now).2.expire_buckets
           = c.expire_buckets.set
               ((((now % c.period) / c.interval - 1) % (c.expire_buckets.length : Int)).toNat)
               ((find_expired
                   (c.expire_buckets.getD
                     ((((now % c.period) / c.interval - 1) % (c.expire_buckets.length : Int)).toNat) [])
                   now).2
                 ++ [(key, expires now time)])))
    ∧ (∀ (V : Type) (c : MemoryCache V) (mapping : List (String × V)) (time : Int)
         (kpre : String) (now : Int),
       0 < expires now time →
       (store_multi_go c.items now (expires now time) kpre 0 mapping).2.1 ≠ [] →
       (c.store_multi mapping time kpre 0 now).2.last_expire_bucket_id
           = (now % c.period) / c.interval
       ∧ (c.last_expire_bucket_id ≠ (now % c.period) / c.interval →
           (c.store_multi mapping time kpre 0 now).2.expire_buckets
             = c.expire_buckets.set
                 ((((now % c.period) / c.interval - 1) % (c.expire_buckets.length : Int)).toNat)
                 ((find_expired
                     (c.expire_buckets.getD
                       ((((now % c.period) / c.interval - 1) % (c.expire_buckets.length : Int)).toNat) [])
                     now).2
                   ++ (store_multi_go c.items now (expires now time) kpre 0 mapping).2.1))) := by
  constructor
  · intro V c key v time op now ht hok
    simp only [MemoryCache.store] at hok ⊢
    cases he : c.items key with
    | some entry =>
      simp only [he] at hok ⊢
      by_cases hexp : entry.expires < now
      · simp only [if_pos hexp, if_pos ht] at hok ⊢
        exact bucketPhase_buckets _ [(key, expires now time)] now
      · by_cases hop : op = 1
        · simp only [if_neg hexp, if_pos hop] at hok
          cases hok
        · simp only [if_neg hexp, if_neg hop, if_pos ht] at hok ⊢
          exact bucketPhase_buckets _ [(key, expires now time)] now
    | none =>
      simp only [he] at hok ⊢
      by_cases hop : op = 2
      · simp only [if_pos hop] at hok
        cases hok
      · simp only [if_neg hop, if_pos ht] at hok ⊢
        exact bucketPhase_buckets _ [(key, expires now time)] now
  · intro V c mapping time kpre now ht hsucc
    simp only [MemoryCache.store_multi, if_pos (And.intro ht hsucc)]
    have hb := bucketPhase_buckets
      { c with items := (store_multi_go c.items now (expires now time) kpre 0 mapping).2.2 }
      ((store_multi_go c.items now (expires now time) kpre 0 mapping).2.1) now
    exact ⟨hb.1, hb.2.2⟩

/-- C4 witness: a fresh 60-bucket cache stored at `now = 1000` with TTL
100 sweeps (the empty) bucket 5 — one behind bucket id 6 — appends the
pair there, and records bucket id 6 as swept. -/
theorem store_bucket_sweep_witness :
    ((mcInit Int 60 15).store "k" 1 100 0 1000).2.last_expire_bucket_id = 6
    ∧ ((mcInit Int 60 15).store "k" 1 100 0 1000).2.expire_buckets
        = (List.replicate 60 ([] : List (String × Int))).set 5 [("k", 1100)] := by
  have h := (store_bucket_sweep.1 Int (mcInit Int 60 15) "k" 1 100 0 1000
    (by decide) (by decide)).2.2 (by decide)
  constructor
  · exact (store_bucket_sweep.1 Int (mcInit Int 60 15) "k" 1 100 0 1000
      (by decide) (by decide)).1
  · rw [h]
    decide

/-- C10: overwriting `"k"` (step 2) leaves the superseded pair
`("k", 15)` in the expiry bucket next to the new pair `("k", 112)`;
when that bucket slot is next activated at `now = 16` (step 4) the
sweep collects `"k"` from the stale pair and `delete_multi` removes it
from the main table unconditionally — even though the table's current
entry `("k", 2, 112)` is live (per `liveSpec`) at 16. -/
theorem overwrite_sweep_deletes_live_entry :
    mcRun2.expire_buckets.getD 1 [] = [("k", 15), ("k", 112)]
    ∧ mcRun3.items "k" = some ⟨"k", 2, 112⟩
    ∧ liveSpec (⟨"k", 2, 112⟩ : CacheItem Int) 16
    ∧ mcRun4.items "k" = none
    ∧ mcRun4.items "b" = some ⟨"b", 4, 116⟩ :=
  ⟨by decide, by decide, Or.inr (by decide), by decide, by decide⟩

/-- C5: on a failed action, `guard` computes the per-counter try-count
as 1 when the `cache.add` succeeded and as the `cache.incr` result
otherwise; whenever that count reaches `counter.count` it deletes the
failure key, adds `'lock:' + key` with value 1 and TTL
`counter.duration`, and invokes the alert callback with `(context,
lockout name, counter)` exactly when one is configured (below the
threshold only the add/incr calls are issued); the wrapper returns the
wrapped action's boolean result unchanged. -/
theorem lockout_guard_spec :
    (∀ (Ctx N : Type) (lo : Lockout Ctx N) (o : GuardOracle) (succeed : Bool) (ctx : Ctx),
       (lo.guard o succeed ctx).1 = succeed)
    ∧ (∀ (o : GuardOracle) (i : Nat), o.addOk i = true → guardTryCount o i = 1)
    ∧ (∀ (o : GuardOracle) (i : Nat), o.addOk i = false → guardTryCount o i = o.incrVal i)
    ∧ (∀ (Ctx N : Type) (lo : Lockout Ctx N) (o : GuardOracle) (ctx : Ctx) (i : Nat)
         (c : Counter Ctx), c.count ≤ guardTryCount o i →
       CacheCall.delete (lo.kpre ++ c.key_func ctx) 0 lo.nspace ∈ guardCounter lo o ctx i c
       ∧ CacheCall.add ("lock:" ++ (lo.kpre ++ c.key_func ctx)) 1 c.duration lo.nspace
           ∈ guardCounter lo o ctx i c
       ∧ ((CacheCall.alertCall ctx lo.name c : CacheCall Ctx N) ∈ guardCounter lo o ctx i c
            ↔ c.alert = true))
    ∧ (∀ (Ctx N : Type) (lo : Lockout Ctx N) (o : GuardOracle) (ctx : Ctx) (i : Nat)
         (c : Counter Ctx), ¬ c.count ≤ guardTryCount o i →
       guardCounter lo o ctx i c
         = (if o.addOk i then [CacheCall.add (lo.kpre ++ c.key_func ctx) 1 c.period lo.nspace]
            else [CacheCall.add (lo.kpre ++ c.key_func ctx) 1 c.period lo.nspace,
                  CacheCall.incr (lo.kpre ++ c.key_func ctx) 1 lo.nspace]))
    ∧ (∀ (Ctx N : Type) (lo : Lockout Ctx N) (o : GuardOracle) (ctx : Ctx),
       (lo.guard o false ctx).2
         = lo.counters.enum.flatMap (fun p => guardCounter lo o ctx p.1 p.2)) := by
  refine ⟨?_, ?_, ?_, ?_, ?_, ?_⟩
  · intro Ctx N lo o succeed ctx
    cases succeed <;> simp [Lockout.guard]
  · intro o i h
    simp [guardTryCount, h]
  · intro o i h
    simp [guardTryCount, h]
  · intro Ctx N lo o ctx i c hth
    refine ⟨?_, ?_, ?_⟩
    · by_cases ha : o.addOk i <;> simp [guardCounter, hth, ha]
    · by_cases ha : o.addOk i <;> simp [guardCounter, hth, ha]
    · by_cases ha : o.addOk i <;> by_cases hal : c.alert <;>
        simp [guardCounter, hth, ha, hal]
  · intro Ctx N lo o ctx i c hth
    by_cases ha : o.addOk i <;> simp [guardCounter, hth, ha]
  · intro Ctx N lo o ctx
    simp [Lockout.guard]

/-- C5 witness: the concrete lockout at its threshold — the failing add
with increment answer 3 reaches `count = 3`, so the failure-key delete
and the lock-key add are both issued, and the guard passes `false`
through. -/
theorem lockout_guard_spec_witness :
    (lockoutEx.guard oracleEx false ()).1 = false
    ∧ guardTryCount oracleEx 0 = oracleEx.incrVal 0
    ∧ CacheCall.delete (lockoutEx.kpre ++ counterEx.key_func ()) 0 lockoutEx.nspace
        ∈ guardCounter lockoutEx oracleEx () 0 counterEx
    ∧ CacheCall.add ("lock:" ++ (lockoutEx.kpre ++ counterEx.key_func ())) 1
        counterEx.duration lockoutEx.nspace
        ∈ guardCounter lockoutEx oracleEx () 0 counterEx :=
  ⟨lockout_guard_spec.1 Unit String lockoutEx oracleEx false (),
   lockout_guard_spec.2.2.1 oracleEx 0 rfl,
   (lockout_guard_spec.2.2.2.1 Unit String lockoutEx oracleEx () 0 counterEx (by decide)).1,
   (lockout_guard_spec.2.2.2.1 Unit String lockoutEx oracleEx () 0 counterEx (by decide)).2.1⟩

theorem guardCounter_ns {Ctx N : Type} (lo : Lockout Ctx N) (o : GuardOracle)
    (ctx : Ctx) (i : Nat) (c : Counter Ctx) :
    ∀ call ∈ guardCounter lo o ctx i c,
      CacheCall.nsOf call = none ∨ CacheCall.nsOf call = some lo.nspace := by
  intro call hcall
  simp only [guardCounter, List.mem_append] at hcall
  rcases hcall with h | h
  · by_cases ha : o.addOk i <;> simp only [ha, if_true, if_false,
      Bool.false_eq_true, List.mem_singleton, List.mem_cons,
      List.not_mem_nil, or_false] at h
    · subst h
      right
      rfl
    · rcases h with h | h <;> (subst h; right; rfl)
  · by_cases hth : c.count ≤ guardTryCount o i
    · rw [if_pos hth] at h
      by_cases hal : c.alert <;> simp only [hal, if_true, if_false,
        Bool.false_eq_true, List.mem_append, List.mem_singleton, List.mem_cons,
        List.not_mem_nil, or_false] at h
      · rcases h with (h | h) | h
        · subst h; right; rfl
        · subst h; right; rfl
        · subst h; left; rfl
      · rcases h with h | h <;> (subst h; right; rfl)
    · rw [if_neg hth] at h
      exact absurd h (List.not_mem_nil call)

/-- C8: every constructed `Lockout` — also through `Locker.define` —
stores the namespace as the one-element sequence `(namespace,)` rather
than the scalar, and every cache call `guard` or `forbid_locked` issues
carries exactly that one-element sequence as its namespace argument. -/
theorem lockout_namespace_singleton :
    (∀ (Ctx N : Type) (name : String) (counters : List (Counter Ctx)) (ns : N)
       (kpre : String), (Lockout.make name counters ns kpre).nspace = [ns])
    ∧ (∀ (Ctx N : Type) (lk : Locker N) (name : String) (counters : List (Counter Ctx)),
       (Locker.define lk name counters : Lockout Ctx N).nspace = [lk.nspace])
    ∧ (∀ (Ctx N : Type) (lo : Lockout Ctx N) (o : GuardOracle) (succeed : Bool)
         (ctx : Ctx) (call : CacheCall Ctx N), call ∈ (lo.guard o succeed ctx).2 →
       CacheCall.nsOf call = none ∨ CacheCall.nsOf call = some lo.nspace)
    ∧ (∀ (Ctx N R : Type) (lo : Lockout Ctx N) (locksFound : Bool) (fr fu : R)
         (ctx : Ctx) (call : CacheCall Ctx N),
       call ∈ (lo.forbid_locked locksFound fr fu ctx).2 →
       CacheCall.nsOf call = some lo.nspace) := by
  refine ⟨?_, ?_, ?_, ?_⟩
  · intro Ctx N name counters ns kpre
    rfl
  · intro Ctx N lk name counters
    rfl
  · intro Ctx N lo o succeed ctx call hcall
    cases succeed with
    | true =>
      simp only [Lockout.guard, if_true] at hcall
      split at hcall
      · exact absurd hcall (List.not_mem_nil call)
      · rw [List.mem_singleton] at hcall
        subst hcall
        right
        rfl
    | false =>
      simp only [Lockout.guard, Bool.false_eq_true, if_false] at hcall
      rw [List.mem_flatMap] at hcall
      obtain ⟨p, _, hp⟩ := hcall
      exact guardCounter_ns lo o ctx p.1 p.2 call hp
  · intro Ctx N R lo locksFound fr fu ctx call hcall
    simp only [Lockout.forbid_locked, List.mem_singleton] at hcall
    subst hcall
    rfl

/-- C8 witness: the concrete lockout stores `["app"]`, `define` the
same, and the bulk-lookup call of `forbid_locked` carries that
one-element namespace. -/
theorem lockout_namespace_singleton_witness :
    (Lockout.make "signin" [counterEx] "app" "c:signin:").nspace = ["app"]
    ∧ (Locker.define { nspace := "app", kpre := "c" } "a b" [counterEx] : Lockout Unit String).nspace
        = ["app"]
    ∧ CacheCall.nsOf
        ((CacheCall.get_multi
          (lockoutEx.counters.map (fun c => ("lock:" ++ lockoutEx.kpre) ++ c.key_func ()))
          "" lockoutEx.nspace : CacheCall Unit String))
        = some lockoutEx.nspace :=
  ⟨lockout_namespace_singleton.1 Unit String "signin" [counterEx] "app" "c:signin:",
   lockout_namespace_singleton.2.1 Unit String { nspace := "app", kpre := "c" } "a b" [counterEx],
   lockout_namespace_singleton.2.2.2 Unit String Bool lockoutEx true true false ()
     ((CacheCall.get_multi
       (lockoutEx.counters.map (fun c => ("lock:" ++ lockoutEx.kpre) ++ c.key_func ()))
       "" lockoutEx.nspace : CacheCall Unit String))
     (List.Mem.head _)⟩

/-- C6 counterexample: in the first loop iteration the thread sleeps
0.05 s, but the budget is decremented by 0.10 s — the freshly doubled
backoff — not by the interval just used for sleeping; accordingly, with
a budget of 0.1 s and an unchanged marker, the loop exits after one
iteration with `false`, where accounting by the slept interval would
have budget 0.05 s left and continue polling. -/
theorem wait_budget_decrement_mismatch :
    (wait_step 10 (1/20)).1 = 1/20
    ∧ 10 - (wait_step 10 (1/20)).2.2 = 1/10
    ∧ ¬ 10 - (wait_step 10 (1/20)).2.2 = (wait_step 10 (1/20)).1
    ∧ wait_loop (some 7) (some 7) (1/10) (1/20) [some 7] = some false := by
  refine ⟨?_, ?_, ?_, ?_⟩
  · norm_num [wait_step, next_wait_time]
  · norm_num [wait_step, next_wait_time]
  · norm_num [wait_step, next_wait_time]
  · rw [wait_loop, if_pos (by norm_num), if_neg (by decide), wait_loop,
        if_neg (by norm_num [next_wait_time])]

theorem wait_loop_step (expected : Option Int) (r : Option Int)
    (timeout wait_time : ℚ) (rest : List (Option Int)) (hr : ¬ r = none)
    (hc : 0 < timeout) :
    wait_loop expected expected timeout wait_time (r :: rest)
      = wait_loop expected r (wait_step timeout wait_time).2.2
          (wait_step timeout wait_time).2.1 rest := by
  simp [wait_loop, wait_step, hr, hc]

/-- C6 amended: the backoff interval starts at 0.05 s and follows the
doubling-with-cap-0.8 schedule (`wait_time_seq n = min (0.05·2^n)
0.8`); each iteration sleeps the current interval but decrements the
budget by the updated interval — double the slept one while it is below
the 0.8 cap, equal to it afterwards; and whenever every marker re-read
returns the unchanged expected value, a terminating loop returns
`false`. -/
theorem wait_backoff_amended :
    (∀ (timeout w : ℚ), w < 4/5 →
       (wait_step timeout w).1 = w ∧ (wait_step timeout w).2.2 = timeout - 2 * w)
    ∧ (∀ (timeout w : ℚ), 4/5 ≤ w →
       (wait_step timeout w).1 = w ∧ (wait_step timeout w).2.2 = timeout - w)
    ∧ (∀ n : Nat, wait_time_seq n = min ((1/20 : ℚ) * 2 ^ n) (4/5))
    ∧ (∀ (reads : List (Option Int)) (v : Int) (timeout w : ℚ) (b : Bool),
       (∀ r ∈ reads, r = some v) →
       wait_loop (some v) (some v) timeout w reads = some b → b = false) := by
  refine ⟨?_, ?_, ?_, ?_⟩
  · intro timeout w hw
    constructor
    · rfl
    · simp only [wait_step, next_wait_time, if_pos hw]
      ring
  · intro timeout w hw
    have hw' : ¬ w < 4/5 := not_lt.mpr hw
    constructor
    · rfl
    · simp only [wait_step, next_wait_time, if_neg hw']
  · intro n
    induction n with
    | zero => norm_num [wait_time_seq]
    | succ n ih =>
      rw [wait_time_seq, ih, next_wait_time]
      by_cases h : (1/20 : ℚ) * 2 ^ n < 4/5
      · rw [min_eq_left (le_of_lt h), if_pos h]
        have h16 : (2 : ℚ) ^ n < 16 := by linarith
        have hn4 : n < 4 := by
          by_contra hge
          push_neg at hge
          have h4 : (2 : ℚ) ^ 4 ≤ 2 ^ n := pow_le_pow_right₀ (by norm_num) hge
          norm_num at h4
          linarith
        have hn1 : n + 1 ≤ 4 := hn4
        have h2 : (2 : ℚ) ^ (n + 1) ≤ 2 ^ 4 := pow_le_pow_right₀ (by norm_num) hn1
        have h3 : (1/20 : ℚ) * 2 ^ (n + 1) ≤ 4/5 := by
          norm_num at h2
          linarith
        rw [min_eq_left h3, pow_succ]
        ring
      · push_neg at h
        rw [min_eq_right h, if_neg (by norm_num : ¬ (4/5 : ℚ) < 4/5)]
        have hmono : (2 : ℚ) ^ n ≤ 2 ^ (n + 1) :=
          pow_le_pow_right₀ (by norm_num) (Nat.le_succ n)
        have h2 : (4/5 : ℚ) ≤ (1/20) * 2 ^ (n + 1) := by
          have : (1/20 : ℚ) * 2 ^ n ≤ (1/20) * 2 ^ (n + 1) := by linarith
          linarith
        rw [min_eq_right h2]
  · intro reads
    induction reads with
    | nil =>
      intro v timeout w b _ hloop
      rw [wait_loop] at hloop
      split at hloop
      · cases hloop
      · cases hloop
        rfl
    | cons r rest ih =>
      intro v timeout w b hall hloop
      have hr : r = some v := hall r (List.mem_cons_self _ _)
      rw [wait_loop] at hloop
      split at hloop
      · rw [if_neg (by simp [hr] : ¬ r = none)] at hloop
        rw [hr] at hloop
        exact ih v _ _ b (fun q hq => hall q (List.mem_cons_of_mem _ hq)) hloop
      · cases hloop
        rfl

/-- C6 witness: concrete instances of the amended accounting — below
the cap the decrement is double the slept interval; at the cap they
agree; the fifth backoff value is exactly 0.8; and a two-read run whose
marker never changes returns `false`. -/
theorem wait_backoff_amended_witness :
    ((wait_step 10 (1/20)).1 = 1/20 ∧ (wait_step 10 (1/20)).2.2 = 10 - 2 * (1/20))
    ∧ ((wait_step 10 (4/5)).1 = 4/5 ∧ (wait_step 10 (4/5)).2.2 = 10 - 4/5)
    ∧ wait_time_seq 4 = min ((1/20 : ℚ) * 2 ^ 4) (4/5)
    ∧ (false : Bool) = false := by
  refine ⟨?_, ?_, ?_, ?_⟩
  · exact wait_backoff_amended.1 10 (1/20) (by norm_num)
  · exact wait_backoff_amended.2.1 10 (4/5) (by norm_num)
  · exact wait_backoff_amended.2.2.1 4
  · exact wait_backoff_amended.2.2.2 [some 5, some 5] 5 (1/5) (1/20) false
      (by decide)
      (by rw [wait_loop, if_pos (by norm_num), if_neg (by decide), wait_loop,
              if_pos (by norm_num [next_wait_time]), if_neg (by decide), wait_loop,
              if_neg (by norm_num [next_wait_time])])

/-- C7: the distributed-cache adapter's `incr` (and the symmetric
`decr`) over the modelled external client implements the contract's
semantics: a present key returns its incremented value; a missing key
with no initial value returns absent without seeding; a missing key
with an initial value is seeded and then incremented, returning that
result.  The in-process memory engine of this snapshot, by contrast,
defines no `incr`/`decr` at all — that absence is the code bug recorded
for this claim. -/
theorem memcached_incr_contract :
    (∀ (enc : String → String) (st : String → Option Int) (key : String)
       (delta v : Int) (iv : Option Int), st (enc key) = some v →
       (memcachedIncr enc st key delta iv).1 = some (v + delta)
       ∧ (memcachedIncr enc st key delta iv).2 (enc key) = some (v + delta))
    ∧ (∀ (enc : String → String) (st : String → Option Int) (key : String)
         (delta : Int), st (enc key) = none →
       memcachedIncr enc st key delta none = (none, st))
    ∧ (∀ (enc : String → String) (st : String → Option Int) (key : String)
         (delta iv : Int), st (enc key) = none →
       (memcachedIncr enc st key delta (some iv)).1 = some (iv + delta)
       ∧ (memcachedIncr enc st key delta (some iv)).2 (enc key) = some (iv + delta))
    ∧ (∀ (enc : String → String) (st : String → Option Int) (key : String)
         (delta v : Int) (iv : Option Int), st (enc key) = some v →
       (memcachedDecr enc st key delta iv).1 = some (v - delta))
    ∧ (∀ (enc : String → String) (st : String → Option Int) (key : String)
         (delta : Int), st (enc key) = none →
       memcachedDecr enc st key delta none = (none, st))
    ∧ (∀ (enc : String → String) (st : String → Option Int) (key : String)
         (delta iv : Int), st (enc key) = none →
       (memcachedDecr enc st key delta (some iv)).1 = some (iv - delta)) := by
  refine ⟨?_, ?_, ?_, ?_, ?_, ?_⟩
  · intro enc st key delta v iv h
    constructor <;> simp [memcachedIncr, clientIncr, h]
  · intro enc st key delta h
    simp [memcachedIncr, clientIncr, h]
  · intro enc st key delta iv h
    constructor <;> simp [memcachedIncr, clientIncr, clientAdd, h]
  · intro enc st key delta v iv h
    simp [memcachedDecr, clientDecr, h]
  · intro enc st key delta h
    simp [memcachedDecr, clientDecr, h]
  · intro enc st key delta iv h
    simp [memcachedDecr, clientDecr, clientAdd, h]

/-- C7 witness: the adapter model over a client holding `"n" := 5`
increments to 6, reports a missing `"m"` absent without an initial
value, and seeds-then-increments `"m"` to 3 with initial value 2. -/
theorem memcached_incr_contract_witness :
    ((memcachedIncr id stEx "n" 1 none).1 = some (5 + 1)
      ∧ (memcachedIncr id stEx "n" 1 none).2 (id "n") = some (5 + 1))
    ∧ memcachedIncr id stEx "m" 1 none = (none, stEx)
    ∧ (memcachedIncr id stEx "m" 1 (some 2)).1 = some (2 + 1)
    ∧ (memcachedDecr id stEx "n" 1 none).1 = some (5 - 1) :=
  ⟨memcached_incr_contract.1 id stEx "n" 1 5 none (by decide),
   memcached_incr_contract.2.1 id stEx "m" 1 (by decide),
   (memcached_incr_contract.2.2.1 id stEx "m" 1 2 (by decide)).1,
   memcached_incr_contract.2.2.2.1 id stEx "n" 1 5 none (by decide)⟩

end WheezyCaching
